import Mathlib

/-!
Shallow embedding of the moderation bot's core (Infraction Store,
Dispatcher, Handler Registry) and proofs of the specified properties.

The Infraction Store (`DatabaseManager` in the source) keeps one SQLite
table `user_infractions`; we model the table as a list of rows in
insertion (rowid) order.  `Math.random()` is modelled as an oracle
`g : Nat → Fin 36` supplying the successive values of
`Math.floor(Math.random() * chars.length)` (always in range because
`Math.random() < 1`).  `created_at DATETIME DEFAULT CURRENT_TIMESTAMP`
is modelled by an explicit `now : Nat` argument to the insert.
-/

namespace Store

/-- `InfractionType` enum from the source. -/
inductive InfractionType
  | WARN
  | MUTE
  | KICK
  | BAN
  | TIMEOUT
deriving DecidableEq, Repr

/-- One row of the `user_infractions` table / the `Infraction` interface. -/
structure Infraction where
  id : String
  userId : String
  guildId : String
  moderatorId : String
  type : InfractionType
  reason : String
  createdAt : Nat
deriving DecidableEq, Repr

/-- Table state: rows in insertion (rowid) order. -/
structure DB where
  rows : List Infraction
deriving DecidableEq, Repr

/-- The generation alphabet `chars` of `generateInfractionId`. -/
def chars : List Char := "ABCDEFGHIJKLMNOPQRSTUVWXYZ0123456789".toList


/-- `generateInfractionId`: 8 characters, each `chars.charAt(⌊random*36⌋)`;
the oracle `g` supplies the random draws, attempt `k` consumes draws
`8*k` to `8*k+7`. -/
def generateInfractionId (g : Nat → Fin 36) (k : Nat) : String :=
  String.mk ((List.range 8).map (fun i => chars.get (Fin.cast (by decide) (g (8 * k + i)))))

/-- `isInfractionIdUnique`: `SELECT COUNT(*) FROM user_infractions WHERE id = ?`
returns 0. -/
def isInfractionIdUnique (db : DB) (id : String) : Bool :=
  (db.rows.filter (fun r => r.id == id)).length == 0

/-- The body of `getUniqueInfractionId`: the do/while regenerate loop,
with explicit fuel (the source loop is unbounded; `none` models a run
that has not exited within `fuel` attempts).  `k` is the index of the
next attempt. -/
def getUniqueInfractionIdAux (g : Nat → Fin 36) (db : DB) : Nat → Nat → Option String
  | 0, _ => none
  | fuel + 1, k =>
    let id := generateInfractionId g k
    if isInfractionIdUnique db id then some id
    else getUniqueInfractionIdAux g db fuel (k + 1)

/-- `getUniqueInfractionId`: run the regenerate loop from attempt 0. -/
def getUniqueInfractionId (g : Nat → Fin 36) (db : DB) (fuel : Nat) : Option String :=
  getUniqueInfractionIdAux g db fuel 0

/-- `addInfraction`: get a unique id, then
`INSERT INTO user_infractions (id, user_id, guild_id, moderator_id, type, reason)`;
the row's `created_at` defaults to the current time `now`.  Returns the
id together with the new table state. -/
def addInfraction (g : Nat → Fin 36) (fuel : Nat) (userId guildId moderatorId : String)
    (type : InfractionType) (reason : String) (now : Nat) (db : DB) :
    Option (String × DB) :=
  match getUniqueInfractionId g db fuel with
  | none => none
  | some id =>
    some (id, ⟨db.rows ++ [⟨id, userId, guildId, moderatorId, type, reason, now⟩]⟩)

/-- `addWarning`: convenience wrapper, `addInfraction` with type WARN. -/
def addWarning (g : Nat → Fin 36) (fuel : Nat) (userId guildId moderatorId reason : String)
    (now : Nat) (db : DB) : Option (String × DB) :=
  addInfraction g fuel userId guildId moderatorId InfractionType.WARN reason now db

/-- `getInfractionById`: `SELECT * FROM user_infractions WHERE id = ?`,
first matching row. -/
def getInfractionById (db : DB) (id : String) : Option Infraction :=
  db.rows.find? (fun r => r.id == id)

/-- The WHERE clause shared by `getUserInfractions` and
`getInfractionCount`: `user_id = ? AND guild_id = ?` plus the optional
`AND type = ?`. -/
def matchesScope (userId guildId : String) (t : Option InfractionType) (r : Infraction) : Bool :=
  r.userId == userId && r.guildId == guildId &&
    (match t with
     | none => true
     | some ty => r.type == ty)

/-- `ORDER BY created_at DESC` comparison: `a` may come before `b` when
`b.createdAt ≤ a.createdAt`. -/
def createdGe (a b : Infraction) : Prop := b.createdAt ≤ a.createdAt

instance : DecidableRel createdGe := fun a b => Nat.decLe b.createdAt a.createdAt

instance : IsTotal Infraction createdGe :=
  ⟨fun a b => (Nat.le_total b.createdAt a.createdAt).elim Or.inl Or.inr⟩

instance : IsTrans Infraction createdGe :=
  ⟨fun _ _ _ h1 h2 => Nat.le_trans h2 h1⟩

/-- `getUserInfractions`: filter by scope (and optional type), then
`ORDER BY created_at DESC`.  The query names no tie-breaker and SQLite
leaves the relative order of rows with equal `created_at` unspecified;
the model uses an insertion sort over the table order, and only
consequences insensitive to that choice (membership, length) are relied
on elsewhere. -/
def getUserInfractions (db : DB) (userId guildId : String) (t : Option InfractionType) :
    List Infraction :=
  List.insertionSort createdGe (db.rows.filter (matchesScope userId guildId t))

/-- `getInfractionCount`: `SELECT COUNT(*)` with the same WHERE clause. -/
def getInfractionCount (db : DB) (userId guildId : String) (t : Option InfractionType) : Nat :=
  (db.rows.filter (matchesScope userId guildId t)).length

/-- The public store operations, for the append-only invariant.  Read
operations return values without touching the rows; the two writers are
`addInfraction` and its `addWarning` wrapper. -/
inductive Op
  | add (g : Nat → Fin 36) (fuel : Nat) (userId guildId moderatorId : String)
      (type : InfractionType) (reason : String) (now : Nat)
  | warn (g : Nat → Fin 36) (fuel : Nat) (userId guildId moderatorId reason : String) (now : Nat)
  | queryUser (userId guildId : String) (t : Option InfractionType)
  | queryCount (userId guildId : String) (t : Option InfractionType)
  | queryById (id : String)
  | stats
  | close

/-- Effect of one public store operation on the table state.  An
`addInfraction` whose regenerate loop has not exited (fuel ran out)
has inserted nothing. -/
def applyOp (db : DB) : Op → DB
  | Op.add g fuel u gl m t rsn now =>
    match addInfraction g fuel u gl m t rsn now db with
    | none => db
    | some (_, db2) => db2
  | Op.warn g fuel u gl m rsn now =>
    match addWarning g fuel u gl m rsn now db with
    | none => db
    | some (_, db2) => db2
  | Op.queryUser _ _ _ => db
  | Op.queryCount _ _ _ => db
  | Op.queryById _ => db
  | Op.stats => db
  | Op.close => db

/-- Effect of a sequence of public store operations. -/
def applyOps (db : DB) : List Op → DB
  | [] => db
  | op :: ops => applyOps (applyOp db op) ops

/-- A constant random oracle that always draws index 0 (the letter A). -/
def gA : Nat → Fin 36 := fun _ => ⟨0, by norm_num⟩

/-- A store already holding the one id the constant oracle can produce. -/
def dbA : DB := ⟨[⟨"AAAAAAAA", "u1", "g1", "m1", InfractionType.WARN, "spam", 0⟩]⟩

/-- The empty store. -/
def dbEmpty : DB := ⟨[]⟩

end Store

/-!
The Dispatcher (`interactionCreate.ts`) and the Handler Registry
(`client.commands`, a discord.js `Collection`, i.e. an insertion-ordered
map).  Platform I/O (console logging, `interaction.reply`/`followUp`) is
modelled as a list of emitted effects; a handler or a platform reply
that throws is modelled with `Except`.
-/

namespace Dispatch

/-- The interaction kinds the dispatcher distinguishes
(`isChatInputCommand` / `isButton` / `isStringSelectMenu` /
`isModalSubmit`, or anything else). -/
inductive IKind
  | chatInput
  | button
  | selectMenu
  | modalSubmit
  | other
deriving DecidableEq, Repr

/-- An inbound interaction: its kind, its key (command name or custom
id), the invoking user's tag, the reply state, and an oracle telling
whether a `reply`/`followUp` call to the platform would succeed. -/
structure Interaction where
  kind : IKind
  key : String
  userTag : String
  replied : Bool
  deferred : Bool
  replySucceeds : Bool
deriving DecidableEq, Repr

/-- Observable effects of a dispatch: console logs and platform sends. -/
inductive Effect
  | log (msg : String)
  | logWarn (msg : String)
  | logError (msg : String)
  | logInfo (msg : String)
  | reply (content : String) (ephemeral : Bool)
  | followUp (content : String) (ephemeral : Bool)
deriving DecidableEq, Repr

/-- Whether an effect is only a log entry (no user-visible response). -/
def Effect.isLogOnly : Effect → Bool
  | Effect.log _ => true
  | Effect.logWarn _ => true
  | Effect.logError _ => true
  | Effect.logInfo _ => true
  | Effect.reply _ _ => false
  | Effect.followUp _ _ => false

/-- A registered command handler: its `execute` entry point, which may
throw (`Except.error`). -/
structure Command where
  run : Interaction → Except String Unit

/-- Registry mapping (discord.js `Collection`): association list in
insertion order. -/
abbrev RegMap := List (String × Command)

/-- `Collection.get` / `Collection.has`: first entry with the key. -/
def lookupReg (m : RegMap) (k : String) : Option Command :=
  (List.find? (fun p => p.1 == k) m).map Prod.snd

/-- `Collection.set`: overwrite in place when the key exists, else
append. -/
def setReg (m : RegMap) (k : String) (v : Command) : RegMap :=
  if (List.find? (fun p => p.1 == k) m).isSome then
    List.map (fun p => if p.1 == k then (k, v) else p) m
  else
    m ++ [(k, v)]

/-- The registry state the dispatcher consults. -/
structure Registry where
  commands : RegMap

/-- `sendErrorResponse`: `followUp` when already replied or deferred,
else `reply`, always ephemeral; a platform failure is caught and only
logged (the function itself never throws). -/
def sendErrorResponse (i : Interaction) (userMessage : String) : List Effect :=
  if i.replySucceeds then
    [if i.replied || i.deferred then Effect.followUp userMessage true
     else Effect.reply userMessage true]
  else
    [Effect.logError "Failed to reply with error"]

/-- `handleChatInputCommand`: unknown command → warn + not-found
response; known command → run it, logging the invocation, and on a
throw log the error and send a best-effort failure notice.  The second
component is the function's own outcome (it catches everything, so it
is always `ok`, but the structure mirrors the source's try/catch). -/
def handleChatInputCommand (commands : RegMap) (i : Interaction) :
    List Effect × Except String Unit :=
  match lookupReg commands i.key with
  | none =>
    (Effect.logWarn ("Unknown command: " ++ i.key) ::
       sendErrorResponse i ("Command `" ++ i.key ++ "` not found."),
     Except.ok ())
  | some cmd =>
    let runLog := Effect.log ("Running /" ++ i.key ++ " by " ++ i.userTag)
    match cmd.run i with
    | Except.ok _ =>
      ([runLog, Effect.log (i.key ++ " executed")], Except.ok ())
    | Except.error e =>
      (runLog :: Effect.logError ("Error in command " ++ i.key ++ ": " ++ e) ::
         sendErrorResponse i "Something went wrong while executing the command.",
       Except.ok ())

/-- `handleButtonInteraction`: log the press; the switch knows only
`ping_refresh` (a no-op), every other custom id hits the default and is
only logged as unhandled. -/
def handleButtonInteraction (i : Interaction) : List Effect × Except String Unit :=
  (Effect.log ("Button: " ++ i.key ++ " by " ++ i.userTag) ::
     (if i.key == "ping_refresh" then []
      else [Effect.logInfo ("Unhandled button: " ++ i.key)]),
   Except.ok ())

/-- `handleSelectMenuInteraction`: the switch has only a default, which
logs the menu as unhandled. -/
def handleSelectMenuInteraction (i : Interaction) : List Effect × Except String Unit :=
  ([Effect.log ("Select Menu: " ++ i.key ++ " by " ++ i.userTag),
    Effect.logInfo ("Unhandled select menu: " ++ i.key)],
   Except.ok ())

/-- `handleModalInteraction`: the switch has only a default, which logs
the modal as unhandled. -/
def handleModalInteraction (i : Interaction) : List Effect × Except String Unit :=
  ([Effect.log ("Modal: " ++ i.key ++ " by " ++ i.userTag),
    Effect.logInfo ("Unhandled modal: " ++ i.key)],
   Except.ok ())

/-- The exported `execute` of `interactionCreate`: classify the
interaction, run the matching sub-handler, and catch anything that
escapes it (logging an unexpected-error line).  An interaction of no
recognised kind falls through with no effect. -/
def executeEvent (reg : Registry) (i : Interaction) : List Effect × Except String Unit :=
  let inner : List Effect × Except String Unit :=
    match i.kind with
    | IKind.chatInput => handleChatInputCommand reg.commands i
    | IKind.button => handleButtonInteraction i
    | IKind.selectMenu => handleSelectMenuInteraction i
    | IKind.modalSubmit => handleModalInteraction i
    | IKind.other => ([], Except.ok ())
  match inner.2 with
  | Except.ok _ => (inner.1, Except.ok ())
  | Except.error e =>
    (inner.1 ++ [Effect.logError ("Unexpected interaction handling error: " ++ e)],
     Except.ok ())

/-- Dispatching a stream of interactions in platform delivery order;
each event's dispatch reads only the registry and its own payload. -/
def dispatchAll (reg : Registry) : List Interaction → List Effect
  | [] => []
  | i :: rest => (executeEvent reg i).1 ++ dispatchAll reg rest

/-- A handler that completes normally. -/
def cmdOk : Command := ⟨fun _ => Except.ok ()⟩

/-- A handler that throws. -/
def cmdThrow : Command := ⟨fun _ => Except.error "boom"⟩

/-- A command interaction for a key no handler is registered under. -/
def iUnknown : Interaction :=
  ⟨IKind.chatInput, "unknown", "alice#1", false, false, true⟩

/-- A command interaction for the key the throwing handler sits under. -/
def iWarnCmd : Interaction :=
  ⟨IKind.chatInput, "warn", "alice#1", false, false, true⟩

end Dispatch

/-!
Startup discovery (`loadCommands`, `loadButtons` in `index.ts`): each
candidate module is validated for the required shape before being
registered.  A candidate is modelled by the optional fields the loader
checks for, plus its file path (used in log messages).
-/

namespace Discovery

open Dispatch

/-- A candidate command module: `data` (carrying the command name) and
`execute` are each present or absent; `path` is the file it came from. -/
structure CommandModule where
  dataName : Option String
  exec : Option (Interaction → Except String Unit)
  path : String

/-- `loadCommands` over the flattened list of candidate files: a module
with both `data` and `execute` is `set` into the registry and logged as
loaded; a malformed one is logged with a warning and skipped. -/
def loadCommands : List CommandModule → RegMap → RegMap × List Effect
  | [], reg => (reg, [])
  | c :: cs, reg =>
    match c.dataName, c.exec with
    | some name, some ex =>
      let r := loadCommands cs (setReg reg name ⟨ex⟩)
      (r.1, Effect.log ("Loaded command: " ++ name ++ " from " ++ c.path) :: r.2)
    | _, _ =>
      let r := loadCommands cs reg
      (r.1, Effect.logWarn ("Command in " ++ c.path ++ " is missing required properties.") :: r.2)

/-- A candidate button module: `customId` and `execute` each present or
absent. -/
structure ButtonModule where
  customId : Option String
  exec : Option (Interaction → Except String Unit)
  path : String

/-- `loadButtons`: a module with both `customId` and `execute` is `set`
into the button registry and logged as loaded; a malformed one is
skipped with no log at all (the source `if` has no `else`). -/
def loadButtons : List ButtonModule → RegMap → RegMap × List Effect
  | [], reg => (reg, [])
  | b :: bs, reg =>
    match b.customId, b.exec with
    | some cid, some ex =>
      let r := loadButtons bs (setReg reg cid ⟨ex⟩)
      (r.1, Effect.log ("Loaded button: " ++ cid ++ " from " ++ b.path) :: r.2)
    | _, _ =>
      loadButtons bs reg

/-- A button module missing both required properties. -/
def badButton : ButtonModule := ⟨none, none, "bad_button.ts"⟩

/-- A command module missing both required properties. -/
def badCommand : CommandModule := ⟨none, none, "bad_command.ts"⟩

/-- A well-formed command module. -/
def pingCommand : CommandModule := ⟨some "ping", some (fun _ => Except.ok ()), "ping.ts"⟩

end Discovery


namespace Store

theorem generateInfractionId_gA (k : Nat) : generateInfractionId gA k = "AAAAAAAA" := rfl

theorem generateInfractionId_length (g : Nat → Fin 36) (k : Nat) :
    (generateInfractionId g k).length = 8 := by
  simp [generateInfractionId, String.length]

theorem generateInfractionId_chars (g : Nat → Fin 36) (k : Nat) :
    ((generateInfractionId g k).data.all (fun c => chars.contains c)) = true := by
  rw [List.all_eq_true]
  intro c hc
  obtain ⟨i, _, rfl⟩ := List.mem_map.mp hc
  exact List.elem_iff.mpr
    (List.get_mem chars _ _)

/-- Whatever the regenerate loop returns passed the uniqueness check and
was produced by the generator. -/
theorem getUniqueInfractionIdAux_spec {g : Nat → Fin 36} {db : DB} {fuel k : Nat} {id : String}
    (h : getUniqueInfractionIdAux g db fuel k = some id) :
    isInfractionIdUnique db id = true ∧ ∃ j, id = generateInfractionId g j := by
  induction fuel generalizing k with
  | zero => simp [getUniqueInfractionIdAux] at h
  | succ n ih =>
    simp only [getUniqueInfractionIdAux] at h
    split at h
    · exact ⟨Option.some.inj h ▸ (by assumption), k, (Option.some.inj h).symm⟩
    · exact ih h

/-- If attempt `k + j` of the generator yields an unused id, the loop
started at attempt `k` exits within `j + 1` iterations. -/
theorem getUniqueInfractionIdAux_isSome {g : Nat → Fin 36} {db : DB} : ∀ (j k : Nat),
    isInfractionIdUnique db (generateInfractionId g (k + j)) = true →
    (getUniqueInfractionIdAux g db (j + 1) k).isSome = true := by
  intro j
  induction j with
  | zero =>
    intro k h
    simp only [getUniqueInfractionIdAux]
    rw [if_pos (by simpa using h)]
    rfl
  | succ n ih =>
    intro k h
    simp only [getUniqueInfractionIdAux]
    split
    · rfl
    · exact ih (k + 1) (by
        have : k + 1 + n = k + (n + 1) := by omega
        rw [this]
        exact h)

/-- An id that passed the uniqueness check matches no stored row. -/
theorem find?_eq_none_of_unique {db : DB} {id : String}
    (h : isInfractionIdUnique db id = true) :
    db.rows.find? (fun r => r.id == id) = none := by
  rw [List.find?_eq_none]
  intro x hx hbeq
  have h0 : (db.rows.filter (fun r => r.id == id)).length = 0 := by
    simpa [isInfractionIdUnique] using h
  have : db.rows.filter (fun r => r.id == id) = [] := List.length_eq_zero.mp h0
  have hmem : x ∈ db.rows.filter (fun r => r.id == id) :=
    List.mem_filter.mpr ⟨hx, hbeq⟩
  simp [this] at hmem

/-- C1: a successful `addInfraction` returns an id that was not present
in the store before the call, and looking that id up afterwards returns
a row whose userId, guildId, moderatorId, type and reason are exactly
the inputs. -/
theorem addInfraction_fresh_id_and_lookup (g : Nat → Fin 36) (fuel : Nat)
    (u gl m : String) (t : InfractionType) (rsn : String) (now : Nat) (db : DB)
    (id : String) (db2 : DB)
    (h : addInfraction g fuel u gl m t rsn now db = some (id, db2)) :
    isInfractionIdUnique db id = true ∧
    getInfractionById db2 id = some ⟨id, u, gl, m, t, rsn, now⟩ := by
  unfold addInfraction at h
  cases hq : getUniqueInfractionId g db fuel with
  | none => rw [hq] at h; simp at h
  | some id0 =>
    rw [hq] at h
    simp only [Option.some.injEq, Prod.mk.injEq] at h
    obtain ⟨rfl, rfl⟩ := h
    have huniq := (getUniqueInfractionIdAux_spec hq).1
    refine ⟨huniq, ?_⟩
    simp [getInfractionById, List.find?_append, find?_eq_none_of_unique huniq,
      List.find?_cons]

theorem addInfraction_fresh_id_and_lookup_witness :
    isInfractionIdUnique dbEmpty "AAAAAAAA" = true ∧
    getInfractionById ⟨[⟨"AAAAAAAA", "u1", "g1", "m1", InfractionType.WARN, "spam", 7⟩]⟩
      "AAAAAAAA" =
      some ⟨"AAAAAAAA", "u1", "g1", "m1", InfractionType.WARN, "spam", 7⟩ :=
  addInfraction_fresh_id_and_lookup gA 1 "u1" "g1" "m1" InfractionType.WARN "spam" 7
    dbEmpty "AAAAAAAA" ⟨[⟨"AAAAAAAA", "u1", "g1", "m1", InfractionType.WARN, "spam", 7⟩]⟩
    (by decide)

/-- C2 (counterexample): with the store holding the single id the
random oracle can produce, the regenerate loop never exits — for every
fuel bound it is still running — even though unused 8-character
alphanumeric ids exist.  Termination therefore does not follow from an
unused id existing; it depends on the random source producing one. -/
theorem getUniqueInfractionIdAux_gA_none :
    ∀ (fuel k : Nat), getUniqueInfractionIdAux gA dbA fuel k = none := by
  intro fuel
  induction fuel with
  | zero => intro k; rfl
  | succ n ih =>
    intro k
    simp only [getUniqueInfractionIdAux, generateInfractionId_gA]
    rw [if_neg (by decide)]
    exact ih (k + 1)

theorem getUniqueInfractionId_nontermination :
    ("BBBBBBBB".length = 8 ∧ ("BBBBBBBB".data.all (fun c => chars.contains c)) = true ∧
      isInfractionIdUnique dbA "BBBBBBBB" = true) ∧
    ∀ fuel, getUniqueInfractionId gA dbA fuel = none :=
  ⟨by decide, fun fuel => getUniqueInfractionIdAux_gA_none fuel 0⟩

/-- C2 (amended): the loop regenerates on collision and, whenever some
generation attempt yields an id absent from the store, it terminates
and returns an unused 8-character id over the 36-character alphabet;
a collision is consumed internally by regeneration, never returned. -/
theorem getUniqueInfractionId_terminates (g : Nat → Fin 36) (db : DB)
    (h : ∃ j, isInfractionIdUnique db (generateInfractionId g j) = true) :
    ∃ fuel id, getUniqueInfractionId g db fuel = some id ∧
      isInfractionIdUnique db id = true ∧
      id.length = 8 ∧ (id.data.all (fun c => chars.contains c)) = true := by
  obtain ⟨j, hj⟩ := h
  have hs := getUniqueInfractionIdAux_isSome j 0 (by simpa using hj)
  obtain ⟨id, hid⟩ := Option.isSome_iff_exists.mp hs
  obtain ⟨huniq, j2, hgen⟩ := getUniqueInfractionIdAux_spec hid
  exact ⟨j + 1, id, hid, huniq,
    hgen ▸ generateInfractionId_length g j2,
    hgen ▸ generateInfractionId_chars g j2⟩

theorem getUniqueInfractionId_terminates_witness :
    ∃ fuel id, getUniqueInfractionId gA dbEmpty fuel = some id ∧
      isInfractionIdUnique dbEmpty id = true ∧
      id.length = 8 ∧ (id.data.all (fun c => chars.contains c)) = true :=
  getUniqueInfractionId_terminates gA dbEmpty ⟨0, by decide⟩

/-- C4: the count query agrees with the length of the rows the list
query returns, for every scope and the same optional type filter. -/
theorem getInfractionCount_eq_length (db : DB) (userId guildId : String)
    (t : Option InfractionType) :
    getInfractionCount db userId guildId t =
      (getUserInfractions db userId guildId t).length := by
  unfold getInfractionCount getUserInfractions
  exact (List.length_insertionSort _ _).symm

/-- C10: every id the generator can produce has exactly 8 characters,
each drawn from the 36-character alphabet `A`-`Z`, `0`-`9` (no
lowercase letters). -/
theorem generateInfractionId_alphanumeric (g : Nat → Fin 36) (k : Nat) :
    (generateInfractionId g k).length = 8 ∧
    ((generateInfractionId g k).data.all (fun c => chars.contains c)) = true ∧
    chars.length = 36 ∧
    (chars.all (fun c => c.isUpper || c.isDigit)) = true :=
  ⟨generateInfractionId_length g k, generateInfractionId_chars g k, rfl, by decide⟩

/-- A successful insert appends exactly one row at the end of the
table. -/
theorem addInfraction_rows {g : Nat → Fin 36} {fuel : Nat} {u gl m : String}
    {t : InfractionType} {rsn : String} {now : Nat} {db : DB} {id : String} {db2 : DB}
    (h : addInfraction g fuel u gl m t rsn now db = some (id, db2)) :
    db2.rows = db.rows ++ [⟨id, u, gl, m, t, rsn, now⟩] := by
  unfold addInfraction at h
  cases hq : getUniqueInfractionId g db fuel with
  | none => rw [hq] at h; simp at h
  | some id0 =>
    rw [hq] at h
    simp only [Option.some.injEq, Prod.mk.injEq] at h
    obtain ⟨rfl, rfl⟩ := h
    rfl

/-- One public operation only ever appends rows. -/
theorem applyOp_rows_extend (db : DB) (op : Op) :
    ∃ ext, (applyOp db op).rows = db.rows ++ ext := by
  cases op with
  | add g fuel u gl m t rsn now =>
    simp only [applyOp]
    cases h : addInfraction g fuel u gl m t rsn now db with
    | none => exact ⟨[], (List.append_nil _).symm⟩
    | some p =>
      cases p with
      | mk id db2 => exact ⟨_, addInfraction_rows h⟩
  | warn g fuel u gl m rsn now =>
    simp only [applyOp, addWarning]
    cases h : addInfraction g fuel u gl m InfractionType.WARN rsn now db with
    | none => exact ⟨[], (List.append_nil _).symm⟩
    | some p =>
      cases p with
      | mk id db2 => exact ⟨_, addInfraction_rows h⟩
  | queryUser u gl t => exact ⟨[], (List.append_nil _).symm⟩
  | queryCount u gl t => exact ⟨[], (List.append_nil _).symm⟩
  | queryById id => exact ⟨[], (List.append_nil _).symm⟩
  | stats => exact ⟨[], (List.append_nil _).symm⟩
  | close => exact ⟨[], (List.append_nil _).symm⟩

/-- A sequence of public operations only ever appends rows. -/
theorem applyOps_rows_extend (ops : List Op) (db : DB) :
    ∃ ext, (applyOps db ops).rows = db.rows ++ ext := by
  induction ops generalizing db with
  | nil => exact ⟨[], (List.append_nil _).symm⟩
  | cons op ops ih =>
    obtain ⟨e1, h1⟩ := applyOp_rows_extend db op
    obtain ⟨e2, h2⟩ := ih (applyOp db op)
    exact ⟨e1 ++ e2, by rw [applyOps, h2, h1, List.append_assoc]⟩

/-- C8: the store is append-only — after any sequence of public
operations every previously stored row is still present, is still what
`getInfractionById` returns for its id, and is still returned by the
matching `getUserInfractions` query. -/
theorem store_append_only (ops : List Op) (db : DB) (r : Infraction)
    (hr : r ∈ db.rows) :
    (∃ ext, (applyOps db ops).rows = db.rows ++ ext) ∧
    r ∈ (applyOps db ops).rows ∧
    getInfractionById (applyOps db ops) r.id = getInfractionById db r.id ∧
    r ∈ getUserInfractions (applyOps db ops) r.userId r.guildId none := by
  obtain ⟨ext, hext⟩ := applyOps_rows_extend ops db
  refine ⟨⟨ext, hext⟩, ?_, ?_, ?_⟩
  · rw [hext]
    exact List.mem_append_left _ hr
  · unfold getInfractionById
    rw [hext, List.find?_append]
    cases hf : db.rows.find? (fun x => x.id == r.id) with
    | none =>
      exfalso
      have := List.find?_eq_none.mp hf r hr
      simp at this
    | some x => rfl
  · unfold getUserInfractions
    rw [List.mem_insertionSort]
    apply List.mem_filter.mpr
    refine ⟨?_, ?_⟩
    · rw [hext]
      exact List.mem_append_left _ hr
    · simp [matchesScope]

theorem store_append_only_witness :
    (∃ ext,
      (applyOps dbA [Op.add gA 2 "u2" "g2" "m2" InfractionType.KICK "rude" 9]).rows =
        dbA.rows ++ ext) ∧
    (⟨"AAAAAAAA", "u1", "g1", "m1", InfractionType.WARN, "spam", 0⟩ : Infraction) ∈
      (applyOps dbA [Op.add gA 2 "u2" "g2" "m2" InfractionType.KICK "rude" 9]).rows ∧
    getInfractionById (applyOps dbA [Op.add gA 2 "u2" "g2" "m2" InfractionType.KICK "rude" 9])
        "AAAAAAAA" =
      getInfractionById dbA "AAAAAAAA" ∧
    (⟨"AAAAAAAA", "u1", "g1", "m1", InfractionType.WARN, "spam", 0⟩ : Infraction) ∈
      getUserInfractions
        (applyOps dbA [Op.add gA 2 "u2" "g2" "m2" InfractionType.KICK "rude" 9]) "u1" "g1" none :=
  store_append_only [Op.add gA 2 "u2" "g2" "m2" InfractionType.KICK "rude" 9] dbA
    ⟨"AAAAAAAA", "u1", "g1", "m1", InfractionType.WARN, "spam", 0⟩ (by decide)

end Store

namespace Dispatch

/-- Replacing the value stored under `k` does not change what is found
under any other key. -/
theorem find?_map_set_ne (m : RegMap) (k : String) (v : Command) (k2 : String)
    (h : (k2 == k) = false) :
    List.find? (fun p => p.1 == k2)
        (List.map (fun p => if p.1 == k then (k, v) else p) m) =
      List.find? (fun p => p.1 == k2) m := by
  have hne : k2 ≠ k := by simpa using h
  induction m with
  | nil => rfl
  | cons a m ih =>
    simp only [List.map_cons]
    by_cases ha : (a.1 == k) = true
    · rw [if_pos ha]
      have ha2 : a.1 = k := by simpa using ha
      have h1 : ((k, v).1 == k2) = (a.1 == k2) := by rw [ha2]
      simp only [List.find?, h1]
      cases hak2 : a.1 == k2 with
      | true =>
        exfalso
        have h3 : a.1 = k2 := by simpa using hak2
        exact hne (h3.symm.trans ha2)
      | false => exact ih
    · rw [if_neg ha]
      simp only [List.find?]
      cases hak2 : a.1 == k2 with
      | true => rfl
      | false => exact ih

/-- After replacing the value under a present key `k`, looking up `k`
finds the new value. -/
theorem find?_map_set (m : RegMap) (k : String) (v : Command)
    (hmem : (List.find? (fun p => p.1 == k) m).isSome = true) :
    List.find? (fun p => p.1 == k)
        (List.map (fun p => if p.1 == k then (k, v) else p) m) = some (k, v) := by
  induction m with
  | nil => simp at hmem
  | cons a m ih =>
    simp only [List.map_cons]
    by_cases ha : (a.1 == k) = true
    · rw [if_pos ha]
      simp only [List.find?, beq_self_eq_true]
    · have ha3 : (a.1 == k) = false := by simpa using ha
      rw [if_neg ha]
      simp only [List.find?, ha3]
      apply ih
      simp only [List.find?, ha3] at hmem
      exact hmem

/-- `Collection.set` then `Collection.get`: the set key maps to the new
value, all other keys are untouched. -/
theorem lookupReg_setReg (m : RegMap) (k : String) (v : Command) (k2 : String) :
    lookupReg (setReg m k v) k2 =
      if (k2 == k) = true then some v else lookupReg m k2 := by
  unfold setReg
  by_cases hmem : (List.find? (fun p => p.1 == k) m).isSome = true
  · rw [if_pos hmem]
    by_cases hk : (k2 == k) = true
    · have hk2 : k2 = k := by simpa using hk
      subst hk2
      rw [if_pos hk]
      unfold lookupReg
      rw [find?_map_set m k2 v hmem]
      rfl
    · have hk3 : (k2 == k) = false := by simpa using hk
      rw [if_neg hk]
      unfold lookupReg
      rw [find?_map_set_ne m k v k2 hk3]
  · rw [if_neg hmem]
    unfold lookupReg
    rw [List.find?_append]
    by_cases hk : (k2 == k) = true
    · have hk2 : k2 = k := by simpa using hk
      subst hk2
      have hnone : List.find? (fun p => p.1 == k2) m = none :=
        Option.not_isSome_iff_eq_none.mp hmem
      rw [hnone, if_pos hk]
      simp [List.find?, Option.or]
    · have hne : k2 ≠ k := by simpa using hk
      have hkk2f : (((k, v).1 == k2) : Bool) = false := by
        simp only [beq_eq_false_iff_ne, ne_eq]
        exact fun hkk => hne hkk.symm
      rw [if_neg hk]
      simp [List.find?, hkk2f, Option.or_none]

/-- When no stored pair carries key `k`, nothing survives the key-`k`
filter, even after the overwrite map. -/
theorem filter_map_set_of_absent (m : RegMap) (k : String) (v : Command)
    (habs : ∀ p ∈ m, ¬ ((p.1 == k) = true)) :
    (List.map (fun p => if p.1 == k then (k, v) else p) m).filter
        (fun p => p.1 == k) = [] := by
  induction m with
  | nil => rfl
  | cons a m ih =>
    simp only [List.map_cons]
    have ha := habs a (List.mem_cons_self a m)
    have haf : (a.1 == k) = false := by simpa using ha
    rw [if_neg ha]
    simp only [List.filter, haf]
    exact ih (fun p hp => habs p (List.mem_cons_of_mem a hp))

/-- With duplicate-free keys, the key-`k` entries of the overwrite map
are exactly the one replaced pair. -/
theorem filter_map_set (m : RegMap) (k : String) (v : Command)
    (hnd : (m.map Prod.fst).Nodup)
    (hmem : (List.find? (fun p => p.1 == k) m).isSome = true) :
    (List.map (fun p => if p.1 == k then (k, v) else p) m).filter
        (fun p => p.1 == k) = [(k, v)] := by
  induction m with
  | nil => simp at hmem
  | cons a m ih =>
    rw [List.map_cons] at hnd
    have hnd1 : a.1 ∉ m.map Prod.fst := (List.nodup_cons.mp hnd).1
    have hnd2 : (m.map Prod.fst).Nodup := (List.nodup_cons.mp hnd).2
    simp only [List.map_cons]
    by_cases ha : (a.1 == k) = true
    · have ha2 : a.1 = k := by simpa using ha
      have habs : ∀ p ∈ m, ¬ ((p.1 == k) = true) := by
        intro p hp hpk
        apply hnd1
        have hp2 : p.1 = k := by simpa using hpk
        rw [ha2, ← hp2]
        exact List.mem_map_of_mem Prod.fst hp
      rw [if_pos ha]
      simp only [List.filter, beq_self_eq_true]
      rw [filter_map_set_of_absent m k v habs]
    · have haf : (a.1 == k) = false := by simpa using ha
      rw [if_neg ha]
      simp only [List.filter, haf]
      apply ih hnd2
      simp only [List.find?, haf] at hmem
      exact hmem

/-- With duplicate-free keys, the entries under `k` after a `set` are
exactly the one new pair. -/
theorem filter_setReg (m : RegMap) (k : String) (v : Command)
    (hnd : (m.map Prod.fst).Nodup) :
    (setReg m k v).filter (fun p => p.1 == k) = [(k, v)] := by
  unfold setReg
  by_cases hmem : (List.find? (fun p => p.1 == k) m).isSome = true
  · rw [if_pos hmem]
    exact filter_map_set m k v hnd hmem
  · rw [if_neg hmem]
    have hnone : List.find? (fun p => p.1 == k) m = none :=
      Option.not_isSome_iff_eq_none.mp hmem
    have habs := List.find?_eq_none.mp hnone
    rw [List.filter_append]
    rw [List.filter_eq_nil_iff.mpr habs]
    rw [List.nil_append]
    simp only [List.filter, beq_self_eq_true]

/-- `Collection.set` keeps keys duplicate-free. -/
theorem nodup_keys_setReg (m : RegMap) (k : String) (v : Command)
    (hnd : (m.map Prod.fst).Nodup) :
    ((setReg m k v).map Prod.fst).Nodup := by
  unfold setReg
  by_cases hmem : (List.find? (fun p => p.1 == k) m).isSome = true
  · rw [if_pos hmem]
    have hkeys : (List.map (fun p => if p.1 == k then (k, v) else p) m).map Prod.fst =
        m.map Prod.fst := by
      rw [List.map_map]
      apply List.map_congr_left
      intro p _
      by_cases hp : (p.1 == k) = true
      · have hp2 : p.1 = k := by simpa using hp
        show (if p.1 == k then (k, v) else p).1 = p.1
        rw [if_pos hp]
        exact hp2.symm
      · show (if p.1 == k then (k, v) else p).1 = p.1
        rw [if_neg hp]
    rw [hkeys]
    exact hnd
  · rw [if_neg hmem]
    have hnone : List.find? (fun p => p.1 == k) m = none :=
      Option.not_isSome_iff_eq_none.mp hmem
    have habs := List.find?_eq_none.mp hnone
    rw [List.map_append]
    rw [List.nodup_append]
    refine ⟨hnd, by simp, fun x hx hx2 => ?_⟩
    obtain ⟨p, hp, rfl⟩ := List.mem_map.mp hx
    have hpk : p.1 = k := by simpa using hx2
    exact habs p hp (by simp [hpk])

/-- C7: registering a second handler under an already-registered key
replaces the prior entry — a later lookup of the key returns only the
entry registered last, the registry holds exactly one entry for the
key, and all other keys are unaffected. -/
theorem register_last_wins (m : RegMap) (k : String) (v1 v2 : Command)
    (hnd : (m.map Prod.fst).Nodup) :
    lookupReg (setReg (setReg m k v1) k v2) k = some v2 ∧
    (setReg (setReg m k v1) k v2).filter (fun p => p.1 == k) = [(k, v2)] ∧
    ∀ k2, (k2 == k) = false →
      lookupReg (setReg (setReg m k v1) k v2) k2 = lookupReg m k2 := by
  refine ⟨?_, ?_, ?_⟩
  · rw [lookupReg_setReg]
    simp
  · exact filter_setReg _ k v2 (nodup_keys_setReg m k v1 hnd)
  · intro k2 hk2
    rw [lookupReg_setReg, if_neg (by simp [hk2]), lookupReg_setReg,
      if_neg (by simp [hk2])]

theorem register_last_wins_witness :
    lookupReg (setReg (setReg [] "warn" cmdOk) "warn" cmdThrow) "warn" = some cmdThrow ∧
    (setReg (setReg [] "warn" cmdOk) "warn" cmdThrow).filter (fun p => p.1 == "warn") =
      [("warn", cmdThrow)] ∧
    ∀ k2, (k2 == "warn") = false →
      lookupReg (setReg (setReg [] "warn" cmdOk) "warn" cmdThrow) k2 = lookupReg [] k2 :=
  register_last_wins [] "warn" cmdOk cmdThrow (by simp)

end Dispatch

namespace Dispatch

/-- C5: an event whose key matches no registered handler never throws
out of the dispatcher — the dispatch completes with `ok` after logging
the miss; a command invocation additionally gets the explicit
not-found response sent to the invoking user (when the platform send
succeeds), while every other kind produces only log entries. -/
theorem dispatch_unrouted_completes (reg : Registry) (i : Interaction)
    (hcmd : i.kind = IKind.chatInput → lookupReg reg.commands i.key = none)
    (hbtn : i.kind = IKind.button → (i.key == "ping_refresh") = false) :
    (executeEvent reg i).2 = Except.ok () ∧
    (i.kind = IKind.chatInput →
      (executeEvent reg i).1 =
        Effect.logWarn ("Unknown command: " ++ i.key) ::
          sendErrorResponse i ("Command `" ++ i.key ++ "` not found.") ∧
      (i.replySucceeds = true →
        (if i.replied || i.deferred
         then Effect.followUp ("Command `" ++ i.key ++ "` not found.") true
         else Effect.reply ("Command `" ++ i.key ++ "` not found.") true) ∈
          (executeEvent reg i).1)) ∧
    (i.kind ≠ IKind.chatInput →
      ((executeEvent reg i).1.all Effect.isLogOnly) = true) := by
  cases hk : i.kind with
  | chatInput =>
    have hnone := hcmd hk
    refine ⟨?_, fun _ => ⟨?_, ?_⟩, fun hne => absurd rfl hne⟩
    · simp [executeEvent, hk, handleChatInputCommand, hnone]
    · simp [executeEvent, hk, handleChatInputCommand, hnone]
    · intro hrs
      simp only [executeEvent, hk, handleChatInputCommand, hnone, sendErrorResponse, hrs,
        if_pos]
      by_cases hrd : (i.replied || i.deferred) = true
      · simp [hrd]
      · simp only [if_neg hrd]
        have hrdf : (i.replied || i.deferred) = false := by simpa using hrd
        simp [hrdf]
  | button =>
    have hb := hbtn hk
    refine ⟨?_, fun hC => ?_, fun _ => ?_⟩
    · simp [executeEvent, hk, handleButtonInteraction]
    · exact absurd hC (by simp)
    · simp [executeEvent, hk, handleButtonInteraction, hb, Effect.isLogOnly]
  | selectMenu =>
    refine ⟨?_, fun hC => ?_, fun _ => ?_⟩
    · simp [executeEvent, hk, handleSelectMenuInteraction]
    · exact absurd hC (by simp)
    · simp [executeEvent, hk, handleSelectMenuInteraction, Effect.isLogOnly]
  | modalSubmit =>
    refine ⟨?_, fun hC => ?_, fun _ => ?_⟩
    · simp [executeEvent, hk, handleModalInteraction]
    · exact absurd hC (by simp)
    · simp [executeEvent, hk, handleModalInteraction, Effect.isLogOnly]
  | other =>
    refine ⟨?_, fun hC => ?_, fun _ => ?_⟩
    · simp [executeEvent, hk]
    · exact absurd hC (by simp)
    · simp [executeEvent, hk]

theorem dispatch_unrouted_completes_witness :
    (executeEvent ⟨[]⟩ iUnknown).2 = Except.ok () ∧
    (iUnknown.kind = IKind.chatInput →
      (executeEvent ⟨[]⟩ iUnknown).1 =
        Effect.logWarn ("Unknown command: " ++ iUnknown.key) ::
          sendErrorResponse iUnknown ("Command `" ++ iUnknown.key ++ "` not found.") ∧
      (iUnknown.replySucceeds = true →
        (if iUnknown.replied || iUnknown.deferred
         then Effect.followUp ("Command `" ++ iUnknown.key ++ "` not found.") true
         else Effect.reply ("Command `" ++ iUnknown.key ++ "` not found.") true) ∈
          (executeEvent ⟨[]⟩ iUnknown).1)) ∧
    (iUnknown.kind ≠ IKind.chatInput →
      ((executeEvent ⟨[]⟩ iUnknown).1.all Effect.isLogOnly) = true) :=
  dispatch_unrouted_completes ⟨[]⟩ iUnknown (fun _ => rfl) (fun h => by simp [iUnknown] at h)

/-- C6: a handler that throws is caught at the dispatcher boundary —
the dispatch still completes with `ok`, the key and error are logged,
a best-effort failure notice goes to the invoking user, a failure of
that notice send is itself only logged, and the following events are
dispatched exactly as they would be on their own. -/
theorem dispatch_handler_failure_isolated (reg : Registry) (i : Interaction)
    (cmd : Command) (e : String)
    (hk : i.kind = IKind.chatInput)
    (hfound : lookupReg reg.commands i.key = some cmd)
    (hthrow : cmd.run i = Except.error e) :
    (executeEvent reg i).2 = Except.ok () ∧
    Effect.logError ("Error in command " ++ i.key ++ ": " ++ e) ∈ (executeEvent reg i).1 ∧
    (i.replySucceeds = true →
      (if i.replied || i.deferred
       then Effect.followUp "Something went wrong while executing the command." true
       else Effect.reply "Something went wrong while executing the command." true) ∈
        (executeEvent reg i).1) ∧
    (i.replySucceeds = false →
      Effect.logError "Failed to reply with error" ∈ (executeEvent reg i).1) ∧
    ∀ rest, dispatchAll reg (i :: rest) = (executeEvent reg i).1 ++ dispatchAll reg rest := by
  refine ⟨?_, ?_, ?_, ?_, fun rest => rfl⟩
  · simp [executeEvent, hk, handleChatInputCommand, hfound, hthrow]
  · simp [executeEvent, hk, handleChatInputCommand, hfound, hthrow]
  · intro hrs
    simp only [executeEvent, hk, handleChatInputCommand, hfound, hthrow, sendErrorResponse,
      hrs, if_pos]
    by_cases hrd : (i.replied || i.deferred) = true
    · simp [hrd]
    · have hrdf : (i.replied || i.deferred) = false := by simpa using hrd
      simp [hrdf]
  · intro hrs
    simp [executeEvent, hk, handleChatInputCommand, hfound, hthrow, sendErrorResponse, hrs]

theorem dispatch_handler_failure_isolated_witness :
    (executeEvent ⟨[("warn", cmdThrow)]⟩ iWarnCmd).2 = Except.ok () ∧
    Effect.logError ("Error in command " ++ iWarnCmd.key ++ ": " ++ "boom") ∈
      (executeEvent ⟨[("warn", cmdThrow)]⟩ iWarnCmd).1 ∧
    (iWarnCmd.replySucceeds = true →
      (if iWarnCmd.replied || iWarnCmd.deferred
       then Effect.followUp "Something went wrong while executing the command." true
       else Effect.reply "Something went wrong while executing the command." true) ∈
        (executeEvent ⟨[("warn", cmdThrow)]⟩ iWarnCmd).1) ∧
    (iWarnCmd.replySucceeds = false →
      Effect.logError "Failed to reply with error" ∈
        (executeEvent ⟨[("warn", cmdThrow)]⟩ iWarnCmd).1) ∧
    ∀ rest, dispatchAll ⟨[("warn", cmdThrow)]⟩ (iWarnCmd :: rest) =
      (executeEvent ⟨[("warn", cmdThrow)]⟩ iWarnCmd).1 ++
        dispatchAll ⟨[("warn", cmdThrow)]⟩ rest :=
  dispatch_handler_failure_isolated ⟨[("warn", cmdThrow)]⟩ iWarnCmd cmdThrow "boom"
    rfl rfl rfl

end Dispatch

namespace Discovery

open Dispatch

/-- A malformed command candidate is warned about and skipped: the
registry is exactly what the remaining candidates produce. -/
theorem loadCommands_malformed (c : CommandModule) (cs : List CommandModule) (reg : RegMap)
    (hc : c.dataName = none ∨ c.exec = none) :
    loadCommands (c :: cs) reg =
      ((loadCommands cs reg).1,
        Effect.logWarn ("Command in " ++ c.path ++ " is missing required properties.") ::
          (loadCommands cs reg).2) := by
  cases hd : c.dataName with
  | none => simp [loadCommands, hd]
  | some name =>
    cases he : c.exec with
    | none => simp [loadCommands, hd, he]
    | some ex =>
      rcases hc with h | h
      · rw [hd] at h
        cases h
      · rw [he] at h
        cases h

/-- A malformed button candidate is skipped with no trace at all. -/
theorem loadButtons_malformed (b : ButtonModule) (bs : List ButtonModule) (reg : RegMap)
    (hb : b.customId = none ∨ b.exec = none) :
    loadButtons (b :: bs) reg = loadButtons bs reg := by
  cases hd : b.customId with
  | none => simp [loadButtons, hd]
  | some cid =>
    cases he : b.exec with
    | none => simp [loadButtons, hd, he]
    | some ex =>
      rcases hb with h | h
      · rw [hd] at h
        cases h
      · rw [he] at h
        cases h

/-- Skipping a malformed command candidate does not abort the pass: the
final registry is the one the remaining candidates build, and the
warning for the malformed candidate is in the log. -/
theorem loadCommands_skips_and_continues (pre post : List CommandModule) (c : CommandModule)
    (init : RegMap) (hc : c.dataName = none ∨ c.exec = none) :
    (loadCommands (pre ++ c :: post) init).1 = (loadCommands (pre ++ post) init).1 ∧
    Effect.logWarn ("Command in " ++ c.path ++ " is missing required properties.") ∈
      (loadCommands (pre ++ c :: post) init).2 := by
  induction pre generalizing init with
  | nil =>
    rw [List.nil_append, List.nil_append, loadCommands_malformed c post init hc]
    exact ⟨rfl, List.mem_cons_self _ _⟩
  | cons a pre ih =>
    cases hd : a.dataName with
    | some name =>
      cases he : a.exec with
      | some ex =>
        have step : ∀ (l : List CommandModule),
            loadCommands (a :: l) init =
              ((loadCommands l (setReg init name ⟨ex⟩)).1,
                Effect.log ("Loaded command: " ++ name ++ " from " ++ a.path) ::
                  (loadCommands l (setReg init name ⟨ex⟩)).2) := by
          intro l
          simp [loadCommands, hd, he]
        rw [List.cons_append, List.cons_append, step, step]
        obtain ⟨h1, h2⟩ := ih (setReg init name ⟨ex⟩)
        exact ⟨h1, List.mem_cons_of_mem _ h2⟩
      | none =>
        rw [List.cons_append, List.cons_append,
          loadCommands_malformed a _ init (Or.inr he),
          loadCommands_malformed a _ init (Or.inr he)]
        obtain ⟨h1, h2⟩ := ih init
        exact ⟨h1, List.mem_cons_of_mem _ h2⟩
    | none =>
      rw [List.cons_append, List.cons_append,
        loadCommands_malformed a _ init (Or.inl hd),
        loadCommands_malformed a _ init (Or.inl hd)]
      obtain ⟨h1, h2⟩ := ih init
      exact ⟨h1, List.mem_cons_of_mem _ h2⟩

/-- Skipping a malformed button candidate does not abort the pass. -/
theorem loadButtons_skips_and_continues (bpre bpost : List ButtonModule) (b : ButtonModule)
    (init : RegMap) (hb : b.customId = none ∨ b.exec = none) :
    loadButtons (bpre ++ b :: bpost) init = loadButtons (bpre ++ bpost) init := by
  induction bpre generalizing init with
  | nil =>
    rw [List.nil_append, List.nil_append, loadButtons_malformed b bpost init hb]
  | cons a bpre ih =>
    cases hd : a.customId with
    | some cid =>
      cases he : a.exec with
      | some ex =>
        have step : ∀ (l : List ButtonModule),
            loadButtons (a :: l) init =
              ((loadButtons l (setReg init cid ⟨ex⟩)).1,
                Effect.log ("Loaded button: " ++ cid ++ " from " ++ a.path) ::
                  (loadButtons l (setReg init cid ⟨ex⟩)).2) := by
          intro l
          simp [loadButtons, hd, he]
        rw [List.cons_append, List.cons_append, step, step, ih (setReg init cid ⟨ex⟩)]
      | none =>
        rw [List.cons_append, List.cons_append,
          loadButtons_malformed a _ init (Or.inr he),
          loadButtons_malformed a _ init (Or.inr he), ih init]
    | none =>
      rw [List.cons_append, List.cons_append,
        loadButtons_malformed a _ init (Or.inl hd),
        loadButtons_malformed a _ init (Or.inl hd), ih init]

/-- A key is registered after a discovery pass exactly when it was
already registered or some candidate exposes both that key and an
execute entry point. -/
theorem lookup_loadCommands (cs : List CommandModule) (reg : RegMap) (k : String) :
    (lookupReg (loadCommands cs reg).1 k).isSome = true ↔
      ((lookupReg reg k).isSome = true ∨
        ∃ m ∈ cs, m.dataName = some k ∧ m.exec.isSome = true) := by
  induction cs generalizing reg with
  | nil => simp [loadCommands]
  | cons a cs ih =>
    cases hd : a.dataName with
    | none =>
      have step := loadCommands_malformed a cs reg (Or.inl hd)
      rw [step]
      rw [ih reg]
      simp [hd]
    | some name =>
      cases he : a.exec with
      | none =>
        have step := loadCommands_malformed a cs reg (Or.inr he)
        rw [step]
        rw [ih reg]
        simp [hd, he]
      | some ex =>
        have step : loadCommands (a :: cs) reg =
            ((loadCommands cs (setReg reg name ⟨ex⟩)).1,
              Effect.log ("Loaded command: " ++ name ++ " from " ++ a.path) ::
                (loadCommands cs (setReg reg name ⟨ex⟩)).2) := by
          simp [loadCommands, hd, he]
        rw [step]
        rw [ih (setReg reg name ⟨ex⟩)]
        rw [show lookupReg (setReg reg name ⟨ex⟩) k =
            if (k == name) = true then some ⟨ex⟩ else lookupReg reg k from
          lookupReg_setReg reg name ⟨ex⟩ k]
        by_cases hk : (k == name) = true
        · have hk2 : k = name := by simpa using hk
          subst hk2
          simp [hk, hd, he]
        · have hk3 : k ≠ name := by simpa using hk
          rw [if_neg hk]
          simp only [List.mem_cons]
          constructor
          · rintro (h | ⟨m, hm, h1, h2⟩)
            · exact Or.inl h
            · exact Or.inr ⟨m, Or.inr hm, h1, h2⟩
          · rintro (h | ⟨m, hm | hm, h1, h2⟩)
            · exact Or.inl h
            · exfalso
              rw [hm, hd] at h1
              exact hk3 (Option.some.inj h1).symm
            · exact Or.inr ⟨m, hm, h1, h2⟩

/-- C9 (counterexample): a button module missing its required
properties is skipped with no log entry at all — the discovery pass
emits nothing for it, contradicting the claim that every malformed
candidate is logged. -/
theorem loadButtons_malformed_unlogged :
    badButton.customId = none ∧ badButton.exec.isSome = false ∧
    loadButtons [badButton] [] = ([], []) :=
  ⟨rfl, rfl, rfl⟩

/-- C9 (amended): a candidate is registered iff it exposes both its key
and its execute entry point; a malformed command candidate is logged
with a warning and skipped, a malformed button candidate is skipped
with no log at all, and neither aborts the rest of the pass. -/
theorem discovery_validates_shape (pre post : List CommandModule) (c : CommandModule)
    (bpre bpost : List ButtonModule) (b : ButtonModule) (init binit : RegMap)
    (hc : c.dataName = none ∨ c.exec = none)
    (hb : b.customId = none ∨ b.exec = none) :
    (loadCommands (pre ++ c :: post) init).1 = (loadCommands (pre ++ post) init).1 ∧
    Effect.logWarn ("Command in " ++ c.path ++ " is missing required properties.") ∈
      (loadCommands (pre ++ c :: post) init).2 ∧
    loadButtons (bpre ++ b :: bpost) binit = loadButtons (bpre ++ bpost) binit ∧
    ∀ (cs : List CommandModule) (k : String),
      (lookupReg (loadCommands cs []).1 k).isSome = true ↔
        ∃ m ∈ cs, m.dataName = some k ∧ m.exec.isSome = true := by
  obtain ⟨h1, h2⟩ := loadCommands_skips_and_continues pre post c init hc
  refine ⟨h1, h2, loadButtons_skips_and_continues bpre bpost b binit hb, ?_⟩
  intro cs k
  rw [lookup_loadCommands cs [] k]
  simp [lookupReg]

theorem discovery_validates_shape_witness :
    (loadCommands ([pingCommand] ++ badCommand :: []) []).1 =
      (loadCommands ([pingCommand] ++ []) []).1 ∧
    Effect.logWarn ("Command in " ++ badCommand.path ++ " is missing required properties.") ∈
      (loadCommands ([pingCommand] ++ badCommand :: []) []).2 ∧
    loadButtons ([] ++ badButton :: []) [] = loadButtons ([] ++ []) [] ∧
    ∀ (cs : List CommandModule) (k : String),
      (lookupReg (loadCommands cs []).1 k).isSome = true ↔
        ∃ m ∈ cs, m.dataName = some k ∧ m.exec.isSome = true :=
  discovery_validates_shape [pingCommand] [] badCommand [] [] badButton [] []
    (Or.inl rfl) (Or.inl rfl)

end Discovery
